import Mathlib

/-!
Verification of the auto-git-commit hook (`auto-git-commit.py`).

Text is modelled as `List Char` (Python `str` is a sequence of Unicode code
points, as is Lean's `String.toList`).  Python's `str.strip()` with no
arguments removes Unicode whitespace from both ends; the diff/message text
handled by this program only ever meets the ASCII whitespace characters,
which are modelled here.
-/

set_option maxRecDepth 20000
set_option maxHeartbeats 1000000

/-- Convert a Lean string literal to the `List Char` text representation. -/
def lstr (s : String) : List Char := s.toList

/-- The straight single-quote character (`chr 39`). -/
def sqChar : Char := Char.ofNat 39

/-- The straight double-quote character (`chr 34`). -/
def dqChar : Char := Char.ofNat 34

/-- The backtick character (`chr 96`). -/
def btChar : Char := Char.ofNat 96

/-- ASCII whitespace, as removed by Python `str.strip()`:
space, tab, newline, carriage return, vertical tab, form feed. -/
def wsChar (c : Char) : Bool :=
  c = ' ' || c = '\t' || c = '\n' || c = '\r' || c = Char.ofNat 11 || c = Char.ofNat 12

/-- Python `text.strip()`: drop whitespace from the front, then from the back. -/
def pyStrip (l : List Char) : List Char :=
  ((l.dropWhile wsChar).reverse.dropWhile wsChar).reverse

/-- The three quote characters tried, in order, by `strip_quotes`:
straight single quote, straight double quote, backtick. -/
def quoteChars : List Char := [sqChar, dqChar, btChar]

/-- Embeds `strip_quotes` (auto-git-commit.py lines 92-115).
`if not text: return text`; `text = text.strip()`; then for each quote
character in order, if `len(text) >= 2 and text.startswith(q) and
text.endswith(q)`, return `text[1:-1].strip()`; otherwise return `text`. -/
def strip_quotes (t : List Char) : List Char :=
  if t = [] then t
  else
    let s := pyStrip t
    if 2 ≤ s.length ∧ s.head? = some sqChar ∧ s.getLast? = some sqChar then
      pyStrip ((s.drop 1).dropLast)
    else if 2 ≤ s.length ∧ s.head? = some dqChar ∧ s.getLast? = some dqChar then
      pyStrip ((s.drop 1).dropLast)
    else if 2 ≤ s.length ∧ s.head? = some btChar ∧ s.getLast? = some btChar then
      pyStrip ((s.drop 1).dropLast)
    else s

/-- Modelled from the spec's words (`MessageSanitizer`, section 4.3), to be
compared with the source embedding `strip_quotes`: trim whitespace; if the
trimmed text has length at least 2 and starts and ends with the same
supported quote character, remove that one pair and trim again; otherwise
return the trimmed text; empty input is returned unchanged. -/
def stripQuotesSpec (t : List Char) : List Char :=
  if t = [] then t
  else
    let s := pyStrip t
    if 2 ≤ s.length ∧ ∃ q ∈ quoteChars, s.head? = some q ∧ s.getLast? = some q then
      pyStrip ((s.drop 1).dropLast)
    else s

/-- Whether `pat` is a prefix of `l` (Python `str.startswith` on the
remainder of the text; used to model `in` and `startswith`). -/
def begins : List Char → List Char → Bool
  | [], _ => true
  | _ :: _, [] => false
  | p :: ps, c :: cs => if p = c then begins ps cs else false

/-- Number of positions of `l` at which `pat` occurs (Python `str.count`
semantics generalised to all, possibly overlapping, start positions). -/
def countOcc (pat : List Char) : List Char → Nat
  | [] => if begins pat [] then 1 else 0
  | c :: rest => (if begins pat (c :: rest) then 1 else 0) + countOcc pat rest

/-- Python's substring test `pat in l`. -/
def containsSub (pat : List Char) : List Char → Bool
  | [] => begins pat []
  | c :: rest => begins pat (c :: rest) || containsSub pat rest

/-- Python `text.split(chr 10)`: split into lines, keeping empty pieces;
the empty text yields one empty piece. -/
def splitOnNl : List Char → List (List Char)
  | [] => [[]]
  | c :: rest =>
    match splitOnNl rest with
    | [] => [[c]]
    | h :: t => if c = '\n' then [] :: h :: t else (c :: h) :: t

/-- Python `(chr 10).join(lines)`. -/
def joinNl (ls : List (List Char)) : List Char :=
  List.intercalate ['\n'] ls

/-- A line opening a diff block: `line.startswith("diff --git")`. -/
def isHeaderLine (l : List Char) : Bool :=
  begins (lstr "diff --git") l

/-- A binary-marker line: `"Binary files" in line and "differ" in line`. -/
def isBinaryLine (l : List Char) : Bool :=
  containsSub (lstr "Binary files") l && containsSub (lstr "differ") l

theorem dropWhileLenLe {α : Type} (p : α → Bool) : ∀ l : List α, (l.dropWhile p).length ≤ l.length
  | [] => Nat.le_refl 0
  | c :: rest => by
    by_cases h : p c
    · rw [List.dropWhile_cons_of_pos h]
      exact Nat.le_trans (dropWhileLenLe p rest) (Nat.le_succ _)
    · rw [List.dropWhile_cons_of_neg h]

/-- Embeds the line-scanning loop of `filter_binary_diff`
(auto-git-commit.py lines 130-165).  On a header line the loop walks the
following non-header lines (`body`); if one of them is a binary marker the
whole block is skipped and scanning resumes at the next header (the binary
branch re-aligns the index with `i -= 1`); otherwise the header and body are
kept, after which the loop's unconditional `i += 1` moves one line past the
end of the block, i.e. scanning resumes one line after the next header.
The Python loop advances its index on every iteration, so its iteration
count is bounded by the number of lines; `fuel` makes that bound explicit
and the recursion structural.  `filterBlocksF` is fuel-irrelevant for any
sufficient fuel (`filterBlocksFuelIrrel`), and the zero-fuel row is never
reached from `filterBlocks`. -/
def filterBlocksF : Nat → List (List Char) → List (List Char)
  | _, [] => []
  | 0, l :: ls => l :: ls
  | Nat.succ fuel, l :: ls =>
    if isHeaderLine l then
      let body := ls.takeWhile (fun x => !isHeaderLine x)
      let rest := ls.dropWhile (fun x => !isHeaderLine x)
      if body.any isBinaryLine then
        filterBlocksF fuel rest
      else
        (l :: body) ++ filterBlocksF fuel (rest.drop 1)
    else
      l :: filterBlocksF fuel ls

/-- The scanning loop, started with enough fuel for its whole input. -/
def filterBlocks (lines : List (List Char)) : List (List Char) :=
  filterBlocksF lines.length lines

theorem filterBlocksFuelIrrel :
    ∀ f g lines, lines.length ≤ f → lines.length ≤ g →
      filterBlocksF f lines = filterBlocksF g lines := by
  intro f
  induction f with
  | zero =>
    intro g lines hf _
    have : lines = [] := List.length_eq_zero.mp (Nat.le_zero.mp hf)
    subst this
    cases g <;> rfl
  | succ f ih =>
    intro g lines hf hg
    cases lines with
    | nil => cases g <;> rfl
    | cons l ls =>
      cases g with
      | zero => simp at hg
      | succ g2 =>
        have hlen : ls.length ≤ f := by simp at hf; omega
        have hlen2 : ls.length ≤ g2 := by simp at hg; omega
        have hrest := dropWhileLenLe (fun x => !isHeaderLine x) ls
        simp only [filterBlocksF]
        by_cases hh : isHeaderLine l
        · rw [if_pos hh, if_pos hh]
          by_cases hbin : (ls.takeWhile (fun x => !isHeaderLine x)).any isBinaryLine
          · rw [if_pos hbin, if_pos hbin]
            exact ih g2 _ (Nat.le_trans hrest hlen) (Nat.le_trans hrest hlen2)
          · rw [if_neg hbin, if_neg hbin]
            have hd : ((ls.dropWhile (fun x => !isHeaderLine x)).drop 1).length ≤ ls.length := by
              simp only [List.length_drop]
              omega
            rw [ih g2 _ (Nat.le_trans hd hlen) (Nat.le_trans hd hlen2)]
        · rw [if_neg hh, if_neg hh]
          rw [ih g2 ls hlen hlen2]

/-- Embeds `filter_binary_diff` (auto-git-commit.py lines 118-165):
`if not diff_text: return diff_text`, else split on newlines, run the
scanning loop, and re-join with newlines. -/
def filter_binary_diff (t : List Char) : List Char :=
  if t = [] then t
  else joinNl (filterBlocks (splitOnNl t))

/-- The fixed prefix list `CONVENTIONAL_PREFIXES` (auto-git-commit.py lines 53-65). -/
def CONVENTIONAL_PREFIXES : List (List Char) :=
  [lstr "build:", lstr "chore:", lstr "ci:", lstr "debug:", lstr "docs:",
   lstr "feat:", lstr "fix:", lstr "perf:", lstr "refactor:", lstr "style:",
   lstr "test:"]

/-- The default language constant `DEFAULT_LANGUAGE` (line 68). -/
def DEFAULT_LANGUAGE : List Char := lstr "日本語"

/-- The default commit message constant `DEFAULT_COMMIT_MESSAGE` (line 88). -/
def DEFAULT_COMMIT_MESSAGE : List Char := lstr "chore: Claude Codeによる自動修正"

/-- One prefix in its individually delimited enumerated form: the Python
f-string wrapping the prefix in backticks. -/
def wrapPrefix (p : List Char) : List Char := btChar :: (p ++ [btChar])

/-- The enumerated prefix list embedded in the prompt (line 290):
the backtick-wrapped prefixes joined with the ideographic comma. -/
def prefixesStr : List Char :=
  List.intercalate (lstr "、") (CONVENTIONAL_PREFIXES.map wrapPrefix)

/-- The elision marker appended when the detailed diff is truncated (line 283). -/
def elisionMarker : List Char := lstr "\n\n[... 以降省略 ...]"

/-- The size bound applied to the detailed diff (lines 282-283): texts longer
than 5000 characters are cut to their first 5000 characters and the elision
marker is appended. -/
def truncateDetail (t : List Char) : List Char :=
  if 5000 < t.length then t.take 5000 ++ elisionMarker else t

/-- Fixed prompt-template text before the `language` insertion point. -/
def tmplA : List Char := lstr "修正内容からConventional Commits形式のgit commit messageを作って。"

/-- Fixed prompt-template text between `language` and `prefixes`. -/
def tmplB : List Char := lstr "で1行で簡潔に。\n\nConventional Commits形式の規則:\n- 必ず"

/-- Fixed prompt-template text between `prefixes` and `changes`. -/
def tmplC : List Char := lstr "のいずれかのプレフィックスで始める\n- プレフィックスの後にコロン(:)とスペースを付ける\n- メッセージは小文字で始める（日本語の場合を除く）\n- 1行で簡潔に変更内容を説明する\n- 現在形・命令形で記述する\n\n<修正内容>\n"

/-- Fixed prompt-template text between `changes` and `detailed_changes`. -/
def tmplD : List Char := lstr "\n\n<詳細>\n"

/-- Fixed prompt-template text after `detailed_changes`. -/
def tmplE : List Char := lstr "\n</修正内容>"

/-- Embeds `COMMIT_MESSAGE_PROMPT.format(...)` (lines 71-85 and 291-296):
the fixed template with the language, the enumerated prefix list, the stat
summary and the (already truncated) detailed diff substituted in. -/
def promptOf (language changes detailed : List Char) : List Char :=
  tmplA ++ (language ++ (tmplB ++ (prefixesStr ++ (tmplC ++ (changes ++ (tmplD ++ (detailed ++ tmplE)))))))

/-- A JSON value, as produced by `json.loads` on the standard-input payload. -/
inductive Json where
  | null : Json
  | bool (b : Bool) : Json
  | num (n : Int) : Json
  | str (s : List Char) : Json
  | arr (xs : List Json) : Json
  | obj (fields : List (List Char × Json)) : Json

/-- Field lookup on a parsed JSON object (`input_data.get("cwd", ...)`). -/
def lookupField (k : List Char) : List (List Char × Json) → Option Json
  | [] => none
  | (k2, v) :: rest => if k2 = k then some v else lookupField k rest

/-- Embeds lines 226-232: `json.loads` followed by `input_data.get("cwd", ".")`
inside `try/except (json.JSONDecodeError, AttributeError)`.  `none` models a
payload that fails to parse (JSONDecodeError); a parsed non-object payload has
no `.get` method (AttributeError, also caught); both default `cwd` to the
current directory.  A present `cwd` field is returned as is, whatever its type. -/
def extractCwd : Option Json → Json
  | some (Json.obj fields) => (lookupField (lstr "cwd") fields).getD (Json.str (lstr "."))
  | _ => Json.str (lstr ".")

/-- Result of the `subprocess.run(["gemini", ...], timeout=25)` call
(lines 308-313): normal completion with an exit status and both streams,
`subprocess.TimeoutExpired`, or any other invocation exception. -/
inductive GeminiOutcome where
  | exited (rc : Int) (out err : List Char) : GeminiOutcome
  | timeout : GeminiOutcome
  | exc (msg : List Char) : GeminiOutcome
deriving DecidableEq

/-- The behaviour of everything outside the program for one run: the parsed
standard-input payload, whether `os.chdir` succeeds on a given value, the
three environment variables, and the result of each external command in the
order `main` issues them.  `run_command` returns stripped captured output and
never raises (lines 168-197), so each command is adequately modelled by the
values it hands back; `statusOut` is the `git status --porcelain` output
(`main` tests only the output, not the success flag). -/
structure Env where
  stdin : Option Json
  chdirOk : Json → Bool
  langVar : Option (List Char)
  defaultMsgVar : Option (List Char)
  autoPushVar : Option (List Char)
  revParseOk : Bool
  statusOut : List Char
  geminiCheckOk : Bool
  diffStatPre : List Char
  diffStatPost : List Char
  diffCached : List Char
  gemini : GeminiOutcome
  commitOk : Bool
  branchOk : Bool
  branchName : List Char
  pushOk : Bool

/-- What one run of the orchestrator did: the process exit code, whether the
`git commit` command was invoked and with which `-m` message, whether the
generator was counted as successful (`gemini_success`), the prompt handed to
the generator, and what the optional push step did. -/
structure RunResult where
  exitCode : Nat
  commitInvoked : Bool := false
  commitMsg : Option (List Char) := none
  genOk : Bool := false
  promptUsed : Option (List Char) := none
  pushRan : Bool := false
  pushSucceeded : Bool := false
deriving DecidableEq

/-- The configured default commit message (lines 218-220): the
`CLAUDE_CODE_DEFAULT_COMMIT_MESSAGE` environment variable, or the constant. -/
def configuredDefault (env : Env) : List Char :=
  env.defaultMsgVar.getD DEFAULT_COMMIT_MESSAGE

/-- Embeds the generation step (lines 299-338): starting from the default
message and `gemini_success = False`, a completed generator run with exit
status 0 and non-whitespace stdout installs the quote-stripped trimmed stdout
and marks success; every other outcome (nonzero exit, whitespace-only stdout,
timeout, invocation exception) keeps the default. -/
def genOutcome (defaultMsg : List Char) : GeminiOutcome → List Char × Bool
  | GeminiOutcome.exited rc out _ =>
    if rc = 0 ∧ pyStrip out ≠ [] then (strip_quotes (pyStrip out), true)
    else (defaultMsg, false)
  | GeminiOutcome.timeout => (defaultMsg, false)
  | GeminiOutcome.exc _ => (defaultMsg, false)

/-- Embeds the body of `main` after the `os.chdir` (lines 237-388):
repository check, pending-changes check, generator-availability check,
staging and diff capture, binary filtering, truncation, prompt construction,
generation with fallback, commit, informational reporting, optional push,
and the final exit code. -/
def pipeline (env : Env) : RunResult :=
  let default_commit_msg := configuredDefault env
  let language := env.langVar.getD DEFAULT_LANGUAGE
  let auto_push := env.autoPushVar.getD (lstr "0") = lstr "1"
  if ¬ env.revParseOk then { exitCode := 1 }
  else if env.statusOut = [] then { exitCode := 0 }
  else if ¬ env.geminiCheckOk then { exitCode := 1 }
  else
    let changes := if env.diffStatPre = [] then env.diffStatPost else env.diffStatPre
    let detailed_changes := truncateDetail (filter_binary_diff env.diffCached)
    let prompt := promptOf language changes detailed_changes
    let gen := genOutcome default_commit_msg env.gemini
    let commit_message := gen.1
    let gemini_success := gen.2
    if env.commitOk then
      let pushRan := auto_push ∧ env.branchOk ∧ env.branchName ≠ []
      { exitCode := if gemini_success then 0 else 1,
        commitInvoked := true,
        commitMsg := some commit_message,
        genOk := gemini_success,
        promptUsed := some prompt,
        pushRan := decide pushRan,
        pushSucceeded := decide (pushRan ∧ env.pushOk) }
    else
      { exitCode := 1,
        commitInvoked := true,
        commitMsg := some commit_message,
        genOk := gemini_success,
        promptUsed := some prompt }

/-- Embeds `main` from the top (lines 214-235 followed by the pipeline):
read stdin, extract `cwd` with its defaulting, `os.chdir(cwd)` — the one
statement outside any `try` that can raise (a non-string value or a missing
directory) — and then the orchestrator body.  `Except.error` marks an
uncaught exception escaping `main`. -/
def mainRun (env : Env) : Except Unit RunResult :=
  let cwd := extractCwd env.stdin
  if env.chdirOk cwd then Except.ok (pipeline env) else Except.error ()

/-- Whether the generator run counts as successful, written from the claim:
the subprocess exited with status 0 and non-whitespace stdout within the
timeout. -/
def genSucceeds : GeminiOutcome → Prop
  | GeminiOutcome.exited rc out _ => rc = 0 ∧ pyStrip out ≠ []
  | GeminiOutcome.timeout => False
  | GeminiOutcome.exc _ => False

instance (g : GeminiOutcome) : Decidable (genSucceeds g) := by
  cases g <;> simp [genSucceeds] <;> infer_instance

/-- The exit-code policy written from the claim text: 0 for no pending
changes or a commit with a generated message; 1 for a missing repository,
a missing generator, a failed commit, or a commit with the fallback message;
the push fields do not appear. -/
def exitCodeSpec (env : Env) : Nat :=
  if ¬ env.revParseOk then 1
  else if env.statusOut = [] then 0
  else if ¬ env.geminiCheckOk then 1
  else if ¬ env.commitOk then 1
  else if genSucceeds env.gemini then 0 else 1

theorem dropWhileHeadFalse {α : Type} (p : α → Bool) :
    ∀ l : List α, ∀ x, (l.dropWhile p).head? = some x → p x = false := by
  intro l
  induction l with
  | nil => intro x hx; simp [List.dropWhile] at hx
  | cons c rest ih =>
    intro x hx
    by_cases h : p c
    · rw [List.dropWhile_cons_of_pos h] at hx
      exact ih x hx
    · rw [List.dropWhile_cons_of_neg h] at hx
      simp only [List.head?_cons, Option.some.injEq] at hx
      rw [← hx]
      exact Bool.eq_false_iff.mpr h

theorem dropWhileOfHead {α : Type} (p : α → Bool) (l : List α)
    (h : ∀ x, l.head? = some x → p x = false) : l.dropWhile p = l := by
  cases l with
  | nil => rfl
  | cons c rest =>
    have hc := h c rfl
    rw [List.dropWhile_cons_of_neg (by simp [hc])]

theorem dropWhileGetLast {α : Type} (p : α → Bool) :
    ∀ m : List α, m.dropWhile p ≠ [] → (m.dropWhile p).getLast? = m.getLast? := by
  intro m
  induction m with
  | nil => intro h; simp [List.dropWhile] at h
  | cons c rest ih =>
    intro h
    by_cases hc : p c
    · rw [List.dropWhile_cons_of_pos hc] at h ⊢
      have hrest : rest ≠ [] := by
        intro he; rw [he] at h; simp [List.dropWhile] at h
      rw [ih h]
      cases rest with
      | nil => exact absurd rfl hrest
      | cons d rest2 => rw [List.getLast?_cons_cons]
    · rw [List.dropWhile_cons_of_neg hc]

theorem pyStripIdem (l : List Char) : pyStrip (pyStrip l) = pyStrip l := by
  unfold pyStrip
  have h1 : ((((l.dropWhile wsChar).reverse.dropWhile wsChar).reverse).dropWhile wsChar)
      = ((l.dropWhile wsChar).reverse.dropWhile wsChar).reverse := by
    apply dropWhileOfHead
    intro x hx
    rw [List.head?_reverse] at hx
    have hne : (l.dropWhile wsChar).reverse.dropWhile wsChar ≠ [] := by
      intro he; rw [he] at hx; simp at hx
    rw [dropWhileGetLast wsChar _ hne, List.getLast?_reverse] at hx
    exact dropWhileHeadFalse wsChar l x hx
  rw [h1, List.reverse_reverse]
  have h2 : ((l.dropWhile wsChar).reverse.dropWhile wsChar).dropWhile wsChar
      = (l.dropWhile wsChar).reverse.dropWhile wsChar := by
    apply dropWhileOfHead
    intro x hx
    exact dropWhileHeadFalse wsChar (l.dropWhile wsChar).reverse x hx
  rw [h2]

theorem pyStripStripQuotes (t : List Char) : pyStrip (strip_quotes t) = strip_quotes t := by
  simp only [strip_quotes]
  split_ifs with h0 h1 h2 h3
  · rw [h0]; rfl
  · exact pyStripIdem _
  · exact pyStripIdem _
  · exact pyStripIdem _
  · exact pyStripIdem _

theorem beginsSelfAppend (pat ys : List Char) : begins pat (pat ++ ys) = true := by
  induction pat with
  | nil => rfl
  | cons p ps ih => simpa [begins] using ih

theorem countOccSelfAppendPos (pat ys : List Char) : 0 < countOcc pat (pat ++ ys) := by
  cases hpat : pat ++ ys with
  | nil =>
    have hp : pat = [] := by
      cases pat with
      | nil => rfl
      | cons a l => simp at hpat
    subst hp
    simp only [List.nil_append] at hpat
    subst hpat
    simp [countOcc, begins]
  | cons c rest =>
    have hb : begins pat (c :: rest) = true := by
      rw [← hpat]; exact beginsSelfAppend pat ys
    simp [countOcc, hb]

theorem countOccLeAppendLeft (pat ys : List Char) : ∀ xs, countOcc pat ys ≤ countOcc pat (xs ++ ys) := by
  intro xs
  induction xs with
  | nil => simp
  | cons x xs ih =>
    simp only [List.cons_append, countOcc]
    exact Nat.le_trans ih (Nat.le_add_left _ _)

theorem beginsEndNoQ (q : Char) : ∀ pat0 zs, (∀ c ∈ zs, c ≠ q) →
    begins (pat0 ++ [q]) zs = false := by
  intro pat0
  induction pat0 with
  | nil =>
    intro zs hz
    cases zs with
    | nil => rfl
    | cons c zs2 =>
      have : q ≠ c := fun h => hz c (List.mem_cons_self c zs2) h.symm
      simp [begins, this]
  | cons p ps ih =>
    intro zs hz
    cases zs with
    | nil => rfl
    | cons c zs2 =>
      by_cases hpc : p = c
      · simp only [List.cons_append, begins, hpc, if_true]
        exact ih zs2 (fun d hd => hz d (List.mem_cons_of_mem c hd))
      · simp [begins, hpc]

theorem beginsAppendRightNoQ (q : Char) (zs : List Char) (hz : ∀ c ∈ zs, c ≠ q) :
    ∀ ys pat0, begins (pat0 ++ [q]) (ys ++ zs) = begins (pat0 ++ [q]) ys := by
  intro ys
  induction ys with
  | nil =>
    intro pat0
    rw [List.nil_append, beginsEndNoQ q pat0 zs hz]
    cases pat0 <;> rfl
  | cons y ys ih =>
    intro pat0
    cases pat0 with
    | nil => simp [begins]
    | cons p ps =>
      by_cases hpy : p = y
      · simp only [List.cons_append, begins, hpy, if_true]
        exact ih ps
      · simp [begins, hpy]

theorem countOccNoQZero (q : Char) (pat0 : List Char) :
    ∀ zs, (∀ c ∈ zs, c ≠ q) → countOcc (pat0 ++ [q]) zs = 0 := by
  intro zs
  induction zs with
  | nil =>
    intro hz
    have hb : begins (pat0 ++ [q]) [] = false := by cases pat0 <;> rfl
    simp [countOcc, hb]
  | cons c zs2 ih =>
    intro hz
    have hb := beginsEndNoQ q pat0 (c :: zs2) hz
    have h2 := ih (fun d hd => hz d (List.mem_cons_of_mem c hd))
    simp [countOcc, hb, h2]

theorem countOccQfreeLeft (q : Char) (pat ys : List Char) :
    ∀ xs, (∀ c ∈ xs, c ≠ q) → countOcc (q :: pat) (xs ++ ys) = countOcc (q :: pat) ys := by
  intro xs
  induction xs with
  | nil => intro _; rfl
  | cons x xs ih =>
    intro hx
    have hqx : q ≠ x := fun h => hx x (List.mem_cons_self x xs) h.symm
    have h2 := ih (fun d hd => hx d (List.mem_cons_of_mem x hd))
    simp [countOcc, begins, hqx, h2]

theorem countOccQfreeRight (q : Char) (pat0 zs : List Char) (hz : ∀ c ∈ zs, c ≠ q) :
    ∀ ys, countOcc (pat0 ++ [q]) (ys ++ zs) = countOcc (pat0 ++ [q]) ys := by
  intro ys
  induction ys with
  | nil =>
    rw [List.nil_append, countOccNoQZero q pat0 zs hz]
    have hb : begins (pat0 ++ [q]) [] = false := by cases pat0 <;> rfl
    simp [countOcc, hb]
  | cons y ys ih =>
    have hb : begins (pat0 ++ [q]) (y :: (ys ++ zs)) = begins (pat0 ++ [q]) (y :: ys) := by
      have h3 := beginsAppendRightNoQ q zs hz (y :: ys) pat0
      simpa using h3
    simp [countOcc, hb, ih]

theorem qfreeAppend (q : Char) (xs ys : List Char)
    (hx : ∀ c ∈ xs, c ≠ q) (hy : ∀ c ∈ ys, c ≠ q) : ∀ c ∈ xs ++ ys, c ≠ q := by
  intro c hc
  rcases List.mem_append.mp hc with h | h
  · exact hx c h
  · exact hy c h

/-- C5: `strip_quotes` first trims surrounding whitespace; if the trimmed
text has length at least 2 and starts and ends with the same quote character
(straight single, straight double, or backtick), exactly that one outer pair
is removed and the result is whitespace-trimmed again; otherwise the
whitespace-trimmed input is returned unchanged; empty input returns empty
input.  Stated as equality between the source embedding and the definition
written from the spec's words. -/
theorem claim5_strip_quotes_matches_spec (t : List Char) : strip_quotes t = stripQuotesSpec t := by
  by_cases ht : t = []
  · simp [strip_quotes, stripQuotesSpec, ht]
  · simp only [strip_quotes, stripQuotesSpec, if_neg ht]
    by_cases h1 : 2 ≤ (pyStrip t).length ∧ (pyStrip t).head? = some sqChar ∧
        (pyStrip t).getLast? = some sqChar
    · rw [if_pos h1, if_pos ⟨h1.1, sqChar, by simp [quoteChars], h1.2.1, h1.2.2⟩]
    · rw [if_neg h1]
      by_cases h2 : 2 ≤ (pyStrip t).length ∧ (pyStrip t).head? = some dqChar ∧
          (pyStrip t).getLast? = some dqChar
      · rw [if_pos h2, if_pos ⟨h2.1, dqChar, by simp [quoteChars], h2.2.1, h2.2.2⟩]
      · rw [if_neg h2]
        by_cases h3 : 2 ≤ (pyStrip t).length ∧ (pyStrip t).head? = some btChar ∧
            (pyStrip t).getLast? = some btChar
        · rw [if_pos h3, if_pos ⟨h3.1, btChar, by simp [quoteChars], h3.2.1, h3.2.2⟩]
        · have hno : ¬(2 ≤ (pyStrip t).length ∧ ∃ q ∈ quoteChars,
              (pyStrip t).head? = some q ∧ (pyStrip t).getLast? = some q) := by
            rintro ⟨hlen, q, hq, hh, hl⟩
            simp only [quoteChars, List.mem_cons, List.not_mem_nil, or_false] at hq
            rcases hq with rfl | rfl | rfl
            · exact h1 ⟨hlen, hh, hl⟩
            · exact h2 ⟨hlen, hh, hl⟩
            · exact h3 ⟨hlen, hh, hl⟩
          rw [if_neg h3, if_neg hno]

theorem stripQuotesFixed (s : List Char) (hs : pyStrip s = s)
    (hq : ¬ ∃ q ∈ quoteChars, 2 ≤ s.length ∧ s.head? = some q ∧ s.getLast? = some q) :
    strip_quotes s = s := by
  by_cases h0 : s = []
  · rw [h0]; rfl
  · have hno1 : ¬(2 ≤ s.length ∧ s.head? = some sqChar ∧ s.getLast? = some sqChar) :=
      fun hc => hq ⟨sqChar, by simp [quoteChars], hc.1, hc.2.1, hc.2.2⟩
    have hno2 : ¬(2 ≤ s.length ∧ s.head? = some dqChar ∧ s.getLast? = some dqChar) :=
      fun hc => hq ⟨dqChar, by simp [quoteChars], hc.1, hc.2.1, hc.2.2⟩
    have hno3 : ¬(2 ≤ s.length ∧ s.head? = some btChar ∧ s.getLast? = some btChar) :=
      fun hc => hq ⟨btChar, by simp [quoteChars], hc.1, hc.2.1, hc.2.2⟩
    simp only [strip_quotes, if_neg h0, hs]
    rw [if_neg hno1, if_neg hno2, if_neg hno3]

/-- C7 counterexample: `strip_quotes` is not idempotent on all inputs.  On
the five-character input consisting of a single-quoted double-quoted `x`,
the first application removes the outer single quotes and the second
application removes the now-outer double quotes, so applying it to its own
output changes the text again. -/
theorem claim7_counterexample :
    strip_quotes (strip_quotes [sqChar, dqChar, 'x', dqChar, sqChar]) ≠
      strip_quotes [sqChar, dqChar, 'x', dqChar, sqChar] := by decide

/-- C7 (amended): `strip_quotes` is idempotent on every input whose first
result is not itself wrapped in a matching quote pair — in particular on all
already-stripped inputs; a nested quote pair is stripped again by a second
application. -/
theorem claim7_idempotent_amended (t : List Char)
    (h : ¬ ∃ q ∈ quoteChars, 2 ≤ (strip_quotes t).length ∧
        (strip_quotes t).head? = some q ∧ (strip_quotes t).getLast? = some q) :
    strip_quotes (strip_quotes t) = strip_quotes t :=
  stripQuotesFixed (strip_quotes t) (pyStripStripQuotes t) h

/-- C7 witness: the amended idempotence instantiated on a plain message. -/
theorem claim7_witness :
    (¬ ∃ q ∈ quoteChars, 2 ≤ (strip_quotes (lstr "feat: x")).length ∧
        (strip_quotes (lstr "feat: x")).head? = some q ∧
        (strip_quotes (lstr "feat: x")).getLast? = some q) ∧
    strip_quotes (strip_quotes (lstr "feat: x")) = strip_quotes (lstr "feat: x") :=
  ⟨by decide, claim7_idempotent_amended (lstr "feat: x") (by decide)⟩

/-- C3: on a diff with two textual blocks and no binary block the filter is
not the identity — the non-binary branch of the loop lacks the index
re-alignment the binary branch has, so the header line of the block that
follows a retained block is dropped.  The three conjuncts: the input has no
binary-marker line; the computed output, with the second header line
missing; and that the output differs from the input, contradicting the
claimed identity. -/
theorem claim3_filter_not_identity :
    (∀ l ∈ splitOnNl (lstr "diff --git a\nx\ndiff --git b\ny"), isBinaryLine l = false) ∧
    filter_binary_diff (lstr "diff --git a\nx\ndiff --git b\ny") = lstr "diff --git a\nx\ny" ∧
    filter_binary_diff (lstr "diff --git a\nx\ndiff --git b\ny") ≠
      lstr "diff --git a\nx\ndiff --git b\ny" :=
  ⟨by decide, by decide, by decide⟩

/-- C4: a binary block that follows a retained textual block is not dropped
entirely — its header line is silently consumed and its binary-marker body
line is emitted verbatim into the output, because scanning resumes one line
past the header of the block after a kept block.  The conjuncts: the
computed output; the emitted line is a binary-marker line; and that line is
one of the output lines. -/
theorem claim4_binary_block_not_dropped :
    filter_binary_diff (lstr "diff --git a\nx\ndiff --git b\nBinary files p and q differ") =
      lstr "diff --git a\nx\nBinary files p and q differ" ∧
    isBinaryLine (lstr "Binary files p and q differ") = true ∧
    lstr "Binary files p and q differ" ∈
      splitOnNl (filter_binary_diff
        (lstr "diff --git a\nx\ndiff --git b\nBinary files p and q differ")) :=
  ⟨by decide, by decide, by decide⟩

/-- C6 counterexample: when the input diff happens to contain the elision
marker itself, the marker is present in the built prompt although the input
did not exceed 5000 characters, so the claimed biconditional fails.  Here
the input diff is the marker text, far below the bound. -/
theorem claim6_counterexample :
    0 < countOcc elisionMarker
      (promptOf (lstr "English") (lstr "c") (truncateDetail elisionMarker)) ∧
    ¬ 5000 < elisionMarker.length :=
  ⟨by decide, by decide⟩

/-- C6 (amended): the detail section equals the input diff when its length
is at most 5000 characters, and otherwise equals exactly the first 5000
characters followed by the fixed elision marker; and, provided the input
diff does not itself contain the marker, the marker occurs in the detail
section if and only if the input exceeded 5000 characters — in which case
it also occurs in the whole built prompt. -/
theorem claim6_truncation_bound (lang changes detail : List Char)
    (h : countOcc elisionMarker detail = 0) :
    (detail.length ≤ 5000 → truncateDetail detail = detail) ∧
    (5000 < detail.length → truncateDetail detail = detail.take 5000 ++ elisionMarker) ∧
    (0 < countOcc elisionMarker (truncateDetail detail) ↔ 5000 < detail.length) ∧
    (5000 < detail.length →
      0 < countOcc elisionMarker (promptOf lang changes (truncateDetail detail))) := by
  have heq : ∀ hgt : 5000 < detail.length,
      truncateDetail detail = detail.take 5000 ++ elisionMarker := by
    intro hgt
    simp only [truncateDetail, if_pos hgt]
  have hself : 0 < countOcc elisionMarker (detail.take 5000 ++ elisionMarker) := by
    have h1 : 0 < countOcc elisionMarker elisionMarker := by
      have h2 := countOccSelfAppendPos elisionMarker []
      simpa using h2
    exact Nat.lt_of_lt_of_le h1 (countOccLeAppendLeft _ _ _)
  refine ⟨?_, heq, ?_, ?_⟩
  · intro hle
    simp only [truncateDetail, if_neg (by omega : ¬ 5000 < detail.length)]
  · constructor
    · intro hpos
      by_contra hle
      rw [truncateDetail, if_neg hle] at hpos
      omega
    · intro hgt
      rw [heq hgt]
      exact hself
  · intro hgt
    rw [heq hgt]
    simp only [promptOf]
    have base : 0 < countOcc elisionMarker ((detail.take 5000 ++ elisionMarker) ++ tmplE) := by
      rw [List.append_assoc]
      exact Nat.lt_of_lt_of_le (countOccSelfAppendPos elisionMarker tmplE)
        (countOccLeAppendLeft _ _ _)
    refine Nat.lt_of_lt_of_le base ?_
    refine Nat.le_trans (countOccLeAppendLeft _ _ tmplD) ?_
    refine Nat.le_trans (countOccLeAppendLeft _ _ changes) ?_
    refine Nat.le_trans (countOccLeAppendLeft _ _ tmplC) ?_
    refine Nat.le_trans (countOccLeAppendLeft _ _ prefixesStr) ?_
    refine Nat.le_trans (countOccLeAppendLeft _ _ tmplB) ?_
    refine Nat.le_trans (countOccLeAppendLeft _ _ lang) ?_
    exact countOccLeAppendLeft _ _ tmplA

/-- C6 witness: the amended statement instantiated on a short diff that does
not contain the marker — the section is the diff unchanged. -/
theorem claim6_witness :
    countOcc elisionMarker (lstr "abc") = 0 ∧ truncateDetail (lstr "abc") = lstr "abc" :=
  ⟨by decide,
    (claim6_truncation_bound (lstr "L") (lstr "c") (lstr "abc") (by decide)).1 (by decide)⟩

/-- C8 counterexample: when the change summary itself contains a
backtick-wrapped prefix, that prefix occurs twice in the built prompt, so
the claimed exactly-once property fails for some inputs.  Here the summary
is the delimited form of `feat:` and the prompt contains it twice. -/
theorem claim8_counterexample :
    lstr "feat:" ∈ CONVENTIONAL_PREFIXES ∧
    countOcc (wrapPrefix (lstr "feat:"))
      (promptOf (lstr "English") (wrapPrefix (lstr "feat:")) (lstr "d")) = 2 :=
  ⟨by decide, by decide⟩

/-- C8 (amended): for every change summary, detailed diff and language that
contain no backtick character, the built prompt contains each of the eleven
configured prefixes exactly once in its individually delimited
(backtick-wrapped) enumerated form. -/
theorem claim8_each_prefix_once (lang changes detail p : List Char)
    (hp : p ∈ CONVENTIONAL_PREFIXES)
    (h1 : ∀ c ∈ lang, c ≠ btChar) (h2 : ∀ c ∈ changes, c ≠ btChar)
    (h3 : ∀ c ∈ detail, c ≠ btChar) :
    countOcc (wrapPrefix p) (promptOf lang changes detail) = 1 := by
  have ha : ∀ c ∈ tmplA, c ≠ btChar := by decide
  have hb : ∀ c ∈ tmplB, c ≠ btChar := by decide
  have hc : ∀ c ∈ tmplC, c ≠ btChar := by decide
  have hd : ∀ c ∈ tmplD, c ≠ btChar := by decide
  have he : ∀ c ∈ tmplE, c ≠ btChar := by decide
  have hz : ∀ c ∈ tmplC ++ (changes ++ (tmplD ++ (detail ++ tmplE))), c ≠ btChar :=
    qfreeAppend _ _ _ hc (qfreeAppend _ _ _ h2 (qfreeAppend _ _ _ hd (qfreeAppend _ _ _ h3 he)))
  simp only [promptOf, wrapPrefix]
  rw [countOccQfreeLeft btChar (p ++ [btChar]) _ tmplA ha]
  rw [countOccQfreeLeft btChar (p ++ [btChar]) _ lang h1]
  rw [countOccQfreeLeft btChar (p ++ [btChar]) _ tmplB hb]
  rw [show btChar :: (p ++ [btChar]) = (btChar :: p) ++ [btChar] from rfl]
  rw [countOccQfreeRight btChar (btChar :: p)
    (tmplC ++ (changes ++ (tmplD ++ (detail ++ tmplE)))) hz prefixesStr]
  have hall : ∀ q ∈ CONVENTIONAL_PREFIXES, countOcc (wrapPrefix q) prefixesStr = 1 := by decide
  exact hall p hp

/-- C8 witness: the amended statement instantiated at the `feat:` prefix
with backtick-free summary, diff and language. -/
theorem claim8_witness :
    lstr "feat:" ∈ CONVENTIONAL_PREFIXES ∧
    countOcc (wrapPrefix (lstr "feat:"))
      (promptOf (lstr "English") (lstr "c") (lstr "d")) = 1 :=
  ⟨by decide, claim8_each_prefix_once (lstr "English") (lstr "c") (lstr "d") (lstr "feat:")
    (by decide) (by decide) (by decide) (by decide)⟩

/-- Whether the generation step fell back to the default message, written
from the claim: nonzero exit status, whitespace-only stdout, timeout, or an
invocation exception. -/
def geminiFellBack : GeminiOutcome → Prop
  | GeminiOutcome.exited rc out _ => rc ≠ 0 ∨ pyStrip out = []
  | GeminiOutcome.timeout => True
  | GeminiOutcome.exc _ => True

/-- C1: the process exit code is 0 when there are no pending changes
(empty status output), or when the commit command succeeds and the message
was produced by the generator; it is 1 when the working directory is not a
repository, when the generator binary is missing, when the commit command
fails, or when the commit succeeds but the fallback message was used; and
the outcome of the optional push step — branch lookup, branch name, push
result, and the push switch itself — never changes the exit code. -/
theorem claim1_exit_code_policy (env : Env) (b1 : Bool) (b2 : List Char) (b3 : Bool)
    (a : Option (List Char)) :
    (pipeline env).exitCode = exitCodeSpec env ∧
    (pipeline
      { env with branchOk := b1, branchName := b2, pushOk := b3, autoPushVar := a }).exitCode
      = (pipeline env).exitCode := by
  constructor
  · rcases hg : env.gemini with ⟨rc, out, err⟩ | _ | m <;>
      simp only [pipeline, exitCodeSpec, genOutcome, genSucceeds, hg] <;>
      split_ifs <;> simp_all
  · rcases hg : env.gemini with ⟨rc, out, err⟩ | _ | m <;>
      simp only [pipeline, genOutcome, hg] <;>
      split_ifs <;> simp_all

/-- C2: for every run that passes the repository, pending-changes and
generator-availability checks — whatever the external commands then do —
if the generator subprocess exits 0 with non-whitespace stdout within the
timeout, the committed message is the quote-stripped whitespace-trimmed
stdout and generation is marked successful; if it exits nonzero, exits 0
with whitespace-only stdout, times out, or raises an invocation exception,
the configured default message is used, generation is marked unsuccessful,
and the run still proceeds to the commit step in every one of these cases. -/
theorem claim2_generation_policy (env : Env) (h1 : env.revParseOk = true)
    (h2 : env.statusOut ≠ []) (h3 : env.geminiCheckOk = true) :
    (∀ rc out err, env.gemini = GeminiOutcome.exited rc out err →
      ((rc = 0 ∧ pyStrip out ≠ []) →
        (pipeline env).commitMsg = some (strip_quotes (pyStrip out)) ∧
        (pipeline env).genOk = true ∧ (pipeline env).commitInvoked = true) ∧
      ((rc ≠ 0 ∨ pyStrip out = []) →
        (pipeline env).commitMsg = some (configuredDefault env) ∧
        (pipeline env).genOk = false ∧ (pipeline env).commitInvoked = true)) ∧
    ((env.gemini = GeminiOutcome.timeout ∨ ∃ m, env.gemini = GeminiOutcome.exc m) →
      (pipeline env).commitMsg = some (configuredDefault env) ∧
      (pipeline env).genOk = false ∧ (pipeline env).commitInvoked = true) := by
  constructor
  · intro rc out err hg
    constructor
    · intro hcond
      have hgen : genOutcome (configuredDefault env) env.gemini =
          (strip_quotes (pyStrip out), true) := by
        rw [hg]; simp [genOutcome, hcond]
      by_cases hcmt : env.commitOk <;>
        simp [pipeline, h1, h2, h3, hgen, hcmt]
    · intro hcond
      have hgen : genOutcome (configuredDefault env) env.gemini =
          (configuredDefault env, false) := by
        rw [hg]
        rcases hcond with hrc | hout
        · simp [genOutcome]; intro hc; exact absurd hc hrc
        · simp [genOutcome, hout]
      by_cases hcmt : env.commitOk <;>
        simp [pipeline, h1, h2, h3, hgen, hcmt]
  · intro hcase
    have hgen : genOutcome (configuredDefault env) env.gemini =
        (configuredDefault env, false) := by
      rcases hcase with ht | ⟨m, hm⟩
      · rw [ht]; simp [genOutcome]
      · rw [hm]; simp [genOutcome]
    by_cases hcmt : env.commitOk <;>
      simp [pipeline, h1, h2, h3, hgen, hcmt]

/-- A concrete external-world behaviour used by the witnesses: a repository
with pending changes, an available generator that answers `ok`, and a
commit that succeeds. -/
def envBase : Env :=
  { stdin := none,
    chdirOk := fun _ => true,
    langVar := none,
    defaultMsgVar := none,
    autoPushVar := none,
    revParseOk := true,
    statusOut := lstr "M f",
    geminiCheckOk := true,
    diffStatPre := lstr "1 file changed",
    diffStatPost := lstr "1 file changed",
    diffCached := lstr "diff --git a\nx",
    gemini := GeminiOutcome.exited 0 (lstr "ok") [],
    commitOk := true,
    branchOk := true,
    branchName := lstr "main",
    pushOk := true }

/-- C2 witness: on `envBase` the generator succeeded, so the committed
message is its trimmed, quote-stripped stdout. -/
theorem claim2_witness :
    envBase.revParseOk = true ∧ envBase.statusOut ≠ [] ∧ envBase.geminiCheckOk = true ∧
    (pipeline envBase).commitMsg = some (lstr "ok") ∧ (pipeline envBase).genOk = true := by
  have h := claim2_generation_policy envBase rfl (by decide) rfl
  have h2 := (h.1 0 (lstr "ok") [] rfl).1 ⟨rfl, by decide⟩
  refine ⟨rfl, by decide, rfl, ?_, h2.2.1⟩
  rw [h2.1]
  decide

/-- C10: quote-stripping is applied only to generator-produced output — on
every fallback path, in a run that reaches the generation step, the message
handed to the commit command is exactly the configured default (environment
variable or built-in constant), with no whitespace trimming or quote
removal. -/
theorem claim10_fallback_message_verbatim (env : Env) (h1 : env.revParseOk = true)
    (h2 : env.statusOut ≠ []) (h3 : env.geminiCheckOk = true)
    (h4 : geminiFellBack env.gemini) :
    (pipeline env).commitMsg = some (configuredDefault env) := by
  have hgen : genOutcome (configuredDefault env) env.gemini =
      (configuredDefault env, false) := by
    rcases hg : env.gemini with ⟨rc, out, err⟩ | _ | m
    · rw [hg] at h4
      rcases h4 with hrc | hout
      · simp [genOutcome]; intro hc; exact absurd hc hrc
      · simp [genOutcome, hout]
    · simp [genOutcome]
    · simp [genOutcome]
  by_cases hcmt : env.commitOk <;>
    simp [pipeline, h1, h2, h3, hgen, hcmt]

/-- An external-world behaviour in which the generator times out and the
configured default message is itself wrapped in double quotes. -/
def envQuotedDefault : Env :=
  { envBase with gemini := GeminiOutcome.timeout,
                 defaultMsgVar := some [dqChar, 'q', dqChar] }

/-- C10 witness: with a quote-wrapped configured default and a generator
timeout, the committed message keeps its quotes — although `strip_quotes`
would have removed them, it is not applied to the default. -/
theorem claim10_witness :
    geminiFellBack envQuotedDefault.gemini ∧
    (pipeline envQuotedDefault).commitMsg = some [dqChar, 'q', dqChar] ∧
    strip_quotes [dqChar, 'q', dqChar] ≠ [dqChar, 'q', dqChar] := by
  refine ⟨trivial, ?_, by decide⟩
  have h := claim10_fallback_message_verbatim envQuotedDefault rfl (by decide) rfl trivial
  rw [h]
  decide

/-- A standard-input payload whose `cwd` field is JSON `null` together with
an `os.chdir` that rejects it, as the real `os.chdir(None)` always does:
`json.loads` succeeds, `dict.get` returns the null value without raising,
and the unguarded `os.chdir` call then raises. -/
def envBadCwd : Env :=
  { envBase with stdin := some (Json.obj [(lstr "cwd", Json.null)]),
                 chdirOk := fun _ => false }

/-- C9 counterexample: an uncaught exception can propagate out of the
orchestrator — the `os.chdir(cwd)` call sits outside every `try` block, so a
payload carrying a mis-typed (or nonexistent) `cwd` crashes the process
instead of terminating by normal return or `sys.exit`. -/
theorem claim9_counterexample : mainRun envBadCwd = Except.error () := by
  rfl

/-- C9 (amended): the `cwd` extraction itself never fails — a malformed
payload, a non-object payload, and an object without a `cwd` field all
default the working directory to the current directory; and provided the
change of directory on the extracted value succeeds, the program terminates
by a normal return or `sys.exit` with no uncaught exception, for every
standard-input payload and every behaviour of the external commands. -/
theorem claim9_no_uncaught_when_chdir_ok (env : Env)
    (h : env.chdirOk (extractCwd env.stdin) = true) :
    mainRun env = Except.ok (pipeline env) ∧
    (env.stdin = none → extractCwd env.stdin = Json.str (lstr ".")) ∧
    (∀ j, env.stdin = some j → (∀ fs, j ≠ Json.obj fs) →
      extractCwd env.stdin = Json.str (lstr ".")) ∧
    (∀ fs, env.stdin = some (Json.obj fs) → lookupField (lstr "cwd") fs = none →
      extractCwd env.stdin = Json.str (lstr ".")) := by
  refine ⟨?_, ?_, ?_, ?_⟩
  · simp [mainRun, h]
  · intro h0
    rw [h0]
    rfl
  · intro j hj hno
    rw [hj]
    cases j with
    | obj fs => exact absurd rfl (hno fs)
    | null => rfl
    | bool b => rfl
    | num n => rfl
    | str s => rfl
    | arr xs => rfl
  · intro fs hfs hlk
    rw [hfs]
    simp [extractCwd, hlk]

/-- C9 witness: the amended statement instantiated on a run whose payload is
malformed (so `cwd` defaults to the current directory) and whose change of
directory succeeds. -/
theorem claim9_witness :
    envBase.chdirOk (extractCwd envBase.stdin) = true ∧
    mainRun envBase = Except.ok (pipeline envBase) ∧
    extractCwd envBase.stdin = Json.str (lstr ".") :=
  ⟨rfl, (claim9_no_uncaught_when_chdir_ok envBase rfl).1,
    (claim9_no_uncaught_when_chdir_ok envBase rfl).2.1 rfl⟩
